import Mathlib

/-!
Shallow embedding of `src/devices/timer.c` (a Pintos timer driver with a
sleeping-threads queue) and proofs about its sleep queue, wake dispatcher,
delay façade, busy-wait loop and calibration refinement.

Machine integers: the C `int64_t` values (tick counters, wake-up times,
loop counts) are modelled as `Int`; `unsigned` calibration words as `Nat`.
No arithmetic here approaches the 64-bit range, and overflow is noted
where the source relies on wrap-around (`timer_calibrate`'s ASSERT).
-/

/-- Modelled from the spec: `TIMER_FREQ` is defined in `devices/timer.h`,
which is not under `src/`; the spec's scenario section fixes the tick
frequency at 100/s and the source's preprocessor checks require
`19 <= TIMER_FREQ <= 1000`. -/
def TIMER_FREQ : Int := 100

/-- `struct sleeping_thread` from timer.c: a thread handle plus its
absolute wake-up tick.  `seq` is a ghost field recording the order in
which sleep requests were made (the position of the `timer_sleep` call in
the global request sequence); the C struct has no such field and no code
path reads it, it only lets FIFO-among-equal-wake-ticks be stated. -/
structure SleepingThread where
  t : Nat
  wake_up_time : Int
  seq : Nat
  deriving DecidableEq, Repr

/-- `compare_wake_up_time` from timer.c: strict `<` on `wake_up_time`. -/
def compare_wake_up_time (a b : SleepingThread) : Bool :=
  a.wake_up_time < b.wake_up_time

/-- Modelled from the spec: `list_insert_ordered` lives in the kernel's
`list.c`, which is not under `src/`.  Per the spec (§4.3 step 4) the
insertion point is the first entry for which the comparator puts the new
element strictly before it — "the first entry whose `wake_tick` exceeds
the new one, or the tail". -/
def list_insert_ordered {α : Type} (less : α → α → Bool) (x : α) :
    List α → List α
  | [] => [x]
  | e :: rest =>
    if less x e then x :: e :: rest else e :: list_insert_ordered less x rest

/-- `list_push_back` (kernel list library): append at the tail. -/
def list_push_back {α : Type} (q : List α) (x : α) : List α := q ++ [x]

/-- The queue mutation performed by `timer_sleep` (timer.c lines 153–157):
push at the back when the list is empty, otherwise ordered insertion with
`compare_wake_up_time`. -/
def timer_sleep_insert (st : SleepingThread) (q : List SleepingThread) :
    List SleepingThread :=
  if q = [] then list_push_back q st
  else list_insert_ordered compare_wake_up_time st q

/-- The queue effect of `timer_sleep n` for a caller entry `st` built at
the call site: for `n <= 0` the function returns before touching any
state (timer.c lines 128–130), otherwise it inserts the entry. -/
def timer_sleep_update (n : Int) (st : SleepingThread)
    (q : List SleepingThread) : List SleepingThread :=
  if n ≤ 0 then q else timer_sleep_insert st q

/-- The inner drain loop of `timer_wakeup` (timer.c lines 172–181): pop
the front while its `wake_up_time` has arrived (`<= curr`), unblocking
each popped entry.  Returns (popped-and-unblocked entries in order,
remaining queue). -/
def timer_wakeup_drain (curr : Int) :
    List SleepingThread → List SleepingThread × List SleepingThread
  | [] => ([], [])
  | st :: rest =>
    if curr < st.wake_up_time then ([], st :: rest)
    else
      (st :: (timer_wakeup_drain curr rest).1, (timer_wakeup_drain curr rest).2)

/-- The `while (loops-- > 0)` loop of `busy_wait` (timer.c lines 311–316),
counting its iterations: the body runs once per decrement while the
pre-decrement value is positive. -/
def busy_wait (loops : Int) : Nat :=
  if h : 0 < loops then busy_wait (loops - 1) + 1 else 0
  termination_by loops.toNat
  decreasing_by
    have h1 : loops.toNat = (loops - 1).toNat + 1 := by omega
    omega

/-- Synchronization events performed by the timer code: lock operations on
`sleeper_lock`, queue mutations, and the scheduler primitives
`thread_block` / `thread_unblock` (consumed as opaque externals). -/
inductive Ev where
  | acquire
  | release
  | insert
  | pop
  | block (tid : Nat)
  | unblock (tid : Nat)
  deriving DecidableEq, Repr

/-- Event trace of `timer_sleep n` for calling thread `tid` (timer.c lines
125–161): nothing at all for `n <= 0`; otherwise `lock_acquire`, the queue
insertion, `lock_release`, then `thread_block`, in that source order. -/
def timer_sleep_events (tid : Nat) (n : Int) : List Ev :=
  if n ≤ 0 then [] else [Ev.acquire, Ev.insert, Ev.release, Ev.block tid]

/-- The `list_pop_front` / `thread_unblock` event pairs emitted for each
drained entry by `timer_wakeup`'s inner loop (timer.c lines 172–181). -/
def unblock_events : List SleepingThread → List Ev
  | [] => []
  | st :: rest => Ev.pop :: Ev.unblock st.t :: unblock_events rest

/-- Event trace of one pass of `timer_wakeup`'s body with `wakeup_needed`
set (timer.c lines 169–182): `lock_acquire`, then pop/unblock for every
ready entry, then `lock_release` — the release comes after the loop, so
every `thread_unblock` happens between acquire and release. -/
def timer_wakeup_pass_events (curr : Int) (q : List SleepingThread) :
    List Ev :=
  Ev.acquire :: unblock_events (timer_wakeup_drain curr q).1 ++ [Ev.release]

/-- Annotate each event of a trace with whether `sleeper_lock` is held at
the moment the event is performed, starting from lock state `held`. -/
def lock_trace (held : Bool) : List Ev → List (Ev × Bool)
  | [] => []
  | e :: rest =>
    (e, held) ::
      lock_trace
        (match e with
          | Ev.acquire => true
          | Ev.release => false
          | _ => held) rest

/-- Checks that every `thread_block` call in the trace is made with the
lock not held. -/
def block_lock_free (tr : List Ev) : Bool :=
  (lock_trace false tr).all fun p =>
    match p.1 with
    | Ev.block _ => !p.2
    | _ => true

/-- Checks that every `thread_unblock` call in the trace is made with the
lock not held. -/
def unblock_lock_free (tr : List Ev) : Bool :=
  (lock_trace false tr).all fun p =>
    match p.1 with
    | Ev.unblock _ => !p.2
    | _ => true

/-- Checks that every `thread_unblock` call in the trace is made while the
lock IS held. -/
def unblock_lock_held (tr : List Ev) : Bool :=
  (lock_trace false tr).all fun p =>
    match p.1 with
    | Ev.unblock _ => p.2
    | _ => true

/-- The state visible to `timer_wakeup`: the `wakeup_needed` flag, the
tick counter and the sleep queue. -/
structure WakeupState where
  wakeup_needed : Bool
  ticks : Int
  queue : List SleepingThread
  deriving DecidableEq, Repr

/-- One iteration of the body of `timer_wakeup`'s `while(true)` loop
(timer.c lines 166–187): if `wakeup_needed` is set, clear it and drain the
ready prefix of the queue at the current tick count; the trailing
`timer_msleep(1)` with interrupts briefly enabled is modelled by the
caller-supplied environment step applied after the body. -/
def timer_wakeup_body (s : WakeupState) : WakeupState :=
  if s.wakeup_needed then
    { wakeup_needed := false
      ticks := s.ticks
      queue := (timer_wakeup_drain s.ticks s.queue).2 }
  else s

/-- The `while(true)` loop of `timer_wakeup`, run for `fuel` iterations:
`env` is an arbitrary environment step (tick advancement, `wakeup_needed`
being set by interrupts) interleaved between iterations.  The result is
`some finalState` if the loop exits within `fuel` iterations and `none`
otherwise; since the loop body contains no `break` or `return`, no
exit case exists. -/
def timer_wakeup_loop (env : WakeupState → WakeupState) :
    Nat → WakeupState → Option WakeupState
  | 0, _ => none
  | f + 1, s => timer_wakeup_loop env f (env (timer_wakeup_body s))

/-- The timer interrupt handler `timer_interrupt` (timer.c lines 261–283):
increments `ticks`, does scheduler bookkeeping, then calls
`timer_wakeup()`; it reaches its end only if `timer_wakeup` returns
within `fuel` loop iterations. -/
def timer_interrupt_run (env : WakeupState → WakeupState) (fuel : Nat)
    (s : WakeupState) : Option WakeupState :=
  timer_wakeup_loop env fuel
    { wakeup_needed := s.wakeup_needed
      ticks := s.ticks + 1
      queue := s.queue }

/-- Operations driving the sleep subsystem: a thread `tid` calling
`timer_sleep n`, or one firing of the timer interrupt followed by a wake
dispatcher drain of the queue. -/
inductive TimerOp where
  | sleep (tid : Nat) (n : Int)
  | tick
  deriving DecidableEq, Repr

/-- Global timer state: the tick counter `ticks`, the sleep queue
`sleeping_threads_list`, the next request sequence number (ghost, counts
`timer_sleep` calls), and a ghost log `woken` of
(entry, tick at which `thread_unblock` was called for it) pairs. -/
structure SysState where
  ticks : Int
  queue : List SleepingThread
  next_seq : Nat
  woken : List (SleepingThread × Int)
  deriving DecidableEq, Repr

/-- Boot state: tick counter 0, empty queue (timer.c `timer_init`). -/
def sys_init : SysState :=
  { ticks := 0, queue := [], next_seq := 0, woken := [] }

/-- One operation.  `sleep tid n` is `timer_sleep n` run by thread `tid`:
the wake-up time is `start + ticks` with `start` the tick counter at the
call (timer.c lines 132–133) and the entry is inserted per lines
153–157 (`timer_sleep_update` includes the `n <= 0` early return).
`tick` is one firing of `timer_interrupt`: the tick counter is
incremented, and the wake dispatcher (the inner loop of `timer_wakeup`)
drains the ready prefix at the new counter value, unblocking each popped
entry. -/
def sys_step (s : SysState) : TimerOp → SysState
  | TimerOp.sleep tid n =>
    { s with
      queue :=
        timer_sleep_update n
          { t := tid, wake_up_time := s.ticks + n, seq := s.next_seq } s.queue
      next_seq := if n ≤ 0 then s.next_seq else s.next_seq + 1 }
  | TimerOp.tick =>
    { s with
      ticks := s.ticks + 1
      queue := (timer_wakeup_drain (s.ticks + 1) s.queue).2
      woken :=
        s.woken ++
          (timer_wakeup_drain (s.ticks + 1) s.queue).1.map
            fun e => (e, s.ticks + 1) }

/-- Run a sequence of operations from boot. -/
def sys_run (ops : List TimerOp) : SysState := ops.foldl sys_step sys_init

/-- The sortedness-plus-FIFO relation on adjacent queue entries: wake-up
times are ascending, and entries with equal wake-up time are ordered by
request sequence number. -/
def queue_le_fifo (a b : SleepingThread) : Prop :=
  a.wake_up_time ≤ b.wake_up_time ∧
    (a.wake_up_time = b.wake_up_time → a.seq < b.seq)

/-- Control outcome of a call into the delay façade: a fatal
`ASSERT (intr_get_level () == INTR_ON)` failure, suspension via
`timer_sleep` for a tick count, the `n <= 0` immediate return, or a
busy-wait fallback via `real_time_delay num denom`. -/
inductive SleepResult where
  | assertFailure
  | blocked (wait : Int)
  | noop
  | delayed (num denom : Int)
  deriving DecidableEq, Repr

/-- Control outcome of `timer_sleep n` (timer.c lines 125–161) as a
function of the interrupt-enable state at the call: the function body
contains no interrupt-level assertion — for `n <= 0` it returns
immediately, and otherwise it queues the caller and calls `thread_block`,
regardless of `intrOn`. -/
def timer_sleep_run (_intrOn : Bool) (n : Int) : SleepResult :=
  if n ≤ 0 then SleepResult.noop else SleepResult.blocked n

/-- `real_time_sleep` (timer.c lines 319–344): converts NUM/DENOM seconds
into ticks with the C (truncating) division `num * TIMER_FREQ / denom`,
asserts interrupts are enabled (line 330, executed on every call), then
either delegates to `timer_sleep` when `ticks > 0` or falls back to the
busy-wait `real_time_delay`. -/
def real_time_sleep (intrOn : Bool) (num denom : Int) : SleepResult :=
  if intrOn then
    if (num * TIMER_FREQ).tdiv denom > 0 then
      timer_sleep_run intrOn ((num * TIMER_FREQ).tdiv denom)
    else SleepResult.delayed num denom
  else SleepResult.assertFailure

/-- `timer_msleep` (timer.c lines 192–196). -/
def timer_msleep (intrOn : Bool) (ms : Int) : SleepResult :=
  real_time_sleep intrOn ms 1000

/-- `timer_usleep` (timer.c lines 200–204). -/
def timer_usleep (intrOn : Bool) (us : Int) : SleepResult :=
  real_time_sleep intrOn us (1000 * 1000)

/-- `timer_nsleep` (timer.c lines 208–212). -/
def timer_nsleep (intrOn : Bool) (ns : Int) : SleepResult :=
  real_time_sleep intrOn ns (1000 * 1000 * 1000)

/-- The loop count `real_time_delay` hands to `busy_wait` (timer.c line
353), with the C evaluation order and truncating division:
`loops_per_tick * num / 1000 * TIMER_FREQ / (denom / 1000)`. -/
def real_time_delay_loops (loops_per_tick num denom : Int) : Int :=
  ((loops_per_tick * num).tdiv 1000 * TIMER_FREQ).tdiv (denom.tdiv 1000)

/-- One body execution of `timer_calibrate`'s refinement loop (timer.c
lines 89–90), parameterized by the timing oracle `tooMany` standing for
`too_many_loops` (whose result depends on real elapsed time): OR the
tested bit in when the result still completes within one tick, otherwise
leave `loops_per_tick` unchanged. -/
def refine_step (tooMany : Nat → Bool) (l b : Nat) : Nat :=
  if tooMany (l ||| b) then l else l ||| b

/-- The refinement `for` loop of `timer_calibrate` (timer.c line 88):
`test_bit` starts at `high_bit >> 1` and halves after each body run until
it equals `stop = high_bit >> 10`.  `fuel` bounds the iterations; 64
covers every value of the source's 32-bit `unsigned test_bit`. -/
def refine_loop (tooMany : Nat → Bool) (stop : Nat) :
    Nat → Nat → Nat → Nat
  | 0, l, _ => l
  | f + 1, l, tb =>
    if tb = stop then l
    else refine_loop tooMany stop f (refine_step tooMany l tb) (tb >>> 1)

/-- The sequence of `test_bit` values on which the refinement loop runs
its body. -/
def refine_bits (stop : Nat) : Nat → Nat → List Nat
  | 0, _ => []
  | f + 1, tb =>
    if tb = stop then [] else tb :: refine_bits stop f (tb >>> 1)

/-- The refinement phase of `timer_calibrate` (timer.c lines 86–90),
started from `high_bit`, the power of two left in `loops_per_tick` by the
exponential search. -/
def timer_calibrate_refine (tooMany : Nat → Bool) (high_bit : Nat) : Nat :=
  refine_loop tooMany (high_bit >>> 10) 64 high_bit (high_bit >>> 1)

/-- The `test_bit` values tested by `timer_calibrate`'s refinement phase
from `high_bit`. -/
def timer_calibrate_refine_bits (high_bit : Nat) : List Nat :=
  refine_bits (high_bit >>> 10) 64 (high_bit >>> 1)

lemma timer_sleep_insert_eq (st : SleepingThread) (q : List SleepingThread) :
    timer_sleep_insert st q = list_insert_ordered compare_wake_up_time st q := by
  cases q with
  | nil => rfl
  | cons e rest => simp [timer_sleep_insert]

/-- C10: the empty-queue special case in `timer_sleep` coincides with the
general ordered-insertion path, so the insertion behaviour is the single
uniform function `list_insert_ordered compare_wake_up_time` of the prior
queue contents. -/
theorem timer_sleep_insert_eq_insert_ordered
    (st : SleepingThread) (q : List SleepingThread) :
    timer_sleep_insert st q = list_insert_ordered compare_wake_up_time st q :=
  timer_sleep_insert_eq st q

lemma busy_wait_toNat_aux (k : Nat) :
    ∀ loops : Int, loops.toNat = k → busy_wait loops = k := by
  induction k with
  | zero =>
    intro loops hk
    unfold busy_wait
    rw [dif_neg (by omega)]
  | succ m ih =>
    intro loops hk
    unfold busy_wait
    rw [dif_pos (by omega)]
    rw [ih (loops - 1) (by omega)]

/-- C9: `busy_wait loops` performs exactly `loops` iterations when
`loops > 0` and zero iterations for every `loops <= 0`; in particular a
negative computed loop count is a harmless no-op. -/
theorem busy_wait_iterations (loops : Int) :
    (0 < loops → busy_wait loops = loops.toNat) ∧
    (loops ≤ 0 → busy_wait loops = 0) := by
  refine ⟨fun _ => busy_wait_toNat_aux loops.toNat loops rfl, fun hnp => ?_⟩
  have := busy_wait_toNat_aux loops.toNat loops rfl
  omega

/-- C3 (the code side): the `while(true)` loop of `timer_wakeup` contains
no `break` or `return`, so the sequence started by `timer_interrupt`
(tick increment, scheduler bookkeeping, `timer_wakeup()` call) completes
within no finite number of loop iterations, for every queue state and
every environment behaviour — the handler never returns. -/
theorem timer_interrupt_never_returns (env : WakeupState → WakeupState)
    (fuel : Nat) (s : WakeupState) :
    timer_interrupt_run env fuel s = none := by
  suffices h : ∀ f t, timer_wakeup_loop env f t = none from h fuel _
  intro f
  induction f with
  | zero => intro t; rfl
  | succ n ih => intro t; exact ih _

lemma unblock_events_lock_checks (l : List SleepingThread) :
    ((lock_trace true (unblock_events l ++ [Ev.release])).all fun p =>
      match p.1 with
      | Ev.block _ => !p.2
      | _ => true) = true ∧
    ((lock_trace true (unblock_events l ++ [Ev.release])).all fun p =>
      match p.1 with
      | Ev.unblock _ => p.2
      | _ => true) = true := by
  induction l with
  | nil => exact ⟨rfl, rfl⟩
  | cons st rest ih =>
    simpa [unblock_events, lock_trace, List.all_cons] using ih

/-- C4 counterexample: with current tick 1 and a single queued entry for
thread 7 with wake-up time 0, the wake-dispatcher pass of `timer_wakeup`
performs its `thread_unblock` call while `sleeper_lock` is held
(`lock_release` only comes after the drain loop), falsifying the claim
that the lock is never held at a thread-resuming call. -/
theorem timer_wakeup_unblock_under_lock_cex :
    unblock_lock_free (timer_wakeup_pass_events 1 [⟨7, 0, 0⟩]) = false := by
  decide

/-- C4 (amended): `timer_sleep` acquires the lock, mutates the queue and
releases the lock strictly before invoking `thread_block` — no block call
ever happens with `sleeper_lock` held (and `timer_sleep` makes no unblock
call at all); `timer_wakeup`, by contrast, makes every `thread_unblock`
call while `sleeper_lock` is held, releasing it only after the drain
loop. -/
theorem lock_discipline (tid : Nat) (n : Int) (curr : Int)
    (q : List SleepingThread) :
    block_lock_free (timer_sleep_events tid n) = true ∧
    unblock_lock_free (timer_sleep_events tid n) = true ∧
    block_lock_free (timer_wakeup_pass_events curr q) = true ∧
    unblock_lock_held (timer_wakeup_pass_events curr q) = true := by
  refine ⟨?_, ?_, ?_, ?_⟩
  · unfold block_lock_free timer_sleep_events
    split <;> rfl
  · unfold unblock_lock_free timer_sleep_events
    split <;> rfl
  · unfold block_lock_free timer_wakeup_pass_events
    simpa [lock_trace, List.all_cons] using
      (unblock_events_lock_checks (timer_wakeup_drain curr q).1).1
  · unfold unblock_lock_held timer_wakeup_pass_events
    simpa [lock_trace, List.all_cons] using
      (unblock_events_lock_checks (timer_wakeup_drain curr q).1).2

/-- C5: for every `n <= 0`, `timer_sleep n` is a defined no-op: it emits
no synchronization events at all (in particular it does not acquire
`sleeper_lock` and does not call `thread_block`) and leaves the sleep
queue unchanged. -/
theorem timer_sleep_nonpositive_noop (tid : Nat) (n : Int)
    (st : SleepingThread) (q : List SleepingThread) (h : n ≤ 0) :
    timer_sleep_events tid n = [] ∧ timer_sleep_update n st q = q := by
  refine ⟨?_, ?_⟩ <;> simp [timer_sleep_events, timer_sleep_update, h]

/-- Witness for C5 at `n = -3`. -/
theorem timer_sleep_nonpositive_noop_witness :
    (-3 : Int) ≤ 0 ∧
      (timer_sleep_events 0 (-3) = [] ∧
        timer_sleep_update (-3) ⟨0, 5, 0⟩ [] = []) :=
  ⟨by decide, timer_sleep_nonpositive_noop 0 (-3) ⟨0, 5, 0⟩ [] (by decide)⟩

lemma timer_wakeup_drain_popped_ready (curr : Int) :
    ∀ q : List SleepingThread, ∀ e ∈ (timer_wakeup_drain curr q).1,
      e.wake_up_time ≤ curr := by
  intro q
  induction q with
  | nil => intro e he; simp [timer_wakeup_drain] at he
  | cons st rest ih =>
    intro e he
    simp only [timer_wakeup_drain] at he
    split at he
    · simp at he
    · next h =>
      simp only [List.mem_cons] at he
      rcases he with rfl | he
      · omega
      · exact ih e he

lemma sys_foldl_woken_ready (ops : List TimerOp) :
    ∀ s : SysState, (∀ p ∈ s.woken, p.1.wake_up_time ≤ p.2) →
      ∀ p ∈ (ops.foldl sys_step s).woken, p.1.wake_up_time ≤ p.2 := by
  induction ops with
  | nil => intro s hs; simpa using hs
  | cons op rest ih =>
    intro s hs
    refine ih _ ?_
    cases op with
    | sleep tid n =>
      intro p hp
      exact hs p (by simpa [sys_step] using hp)
    | tick =>
      intro p hp
      simp only [sys_step, List.mem_append, List.mem_map] at hp
      rcases hp with hp | ⟨e, he, rfl⟩
      · exact hs p hp
      · exact timer_wakeup_drain_popped_ready _ _ e he

/-- C1: a `timer_sleep n` call with `n > 0` made by thread `tid` in state
`s` enqueues an entry whose wake-up time is the tick counter at the call
plus `n`; and in any run, every entry the wake dispatcher unblocks is
unblocked at a tick at or after its wake-up time — never early. -/
theorem timer_sleep_never_early (ops : List TimerOp) (tid : Nat) (n : Int)
    (s : SysState) (hn : 0 < n) :
    (sys_step s (TimerOp.sleep tid n)).queue =
      timer_sleep_insert
        { t := tid, wake_up_time := s.ticks + n, seq := s.next_seq } s.queue ∧
    ∀ p ∈ (sys_run ops).woken, p.1.wake_up_time ≤ p.2 := by
  constructor
  · simp [sys_step, timer_sleep_update, show ¬n ≤ 0 by omega]
  · exact sys_foldl_woken_ready ops sys_init (by simp [sys_init])

/-- Witness for C1: thread 1 sleeps 2 ticks at boot; across three ticks
nothing is woken before its wake-up time. -/
theorem timer_sleep_never_early_witness :
    (0 : Int) < 2 ∧
      ((sys_step sys_init (TimerOp.sleep 1 2)).queue =
        timer_sleep_insert
          { t := 1, wake_up_time := sys_init.ticks + 2,
            seq := sys_init.next_seq } sys_init.queue ∧
      ∀ p ∈ (sys_run [TimerOp.sleep 1 2, TimerOp.tick, TimerOp.tick,
          TimerOp.tick]).woken, p.1.wake_up_time ≤ p.2) :=
  ⟨by decide,
    timer_sleep_never_early
      [TimerOp.sleep 1 2, TimerOp.tick, TimerOp.tick, TimerOp.tick]
      1 2 sys_init (by decide)⟩

lemma mem_list_insert_ordered {α : Type} (less : α → α → Bool) (x a : α) :
    ∀ q : List α, a ∈ list_insert_ordered less x q → a = x ∨ a ∈ q := by
  intro q
  induction q with
  | nil =>
    intro h
    simp [list_insert_ordered] at h
    exact Or.inl h
  | cons e rest ih =>
    intro h
    simp only [list_insert_ordered] at h
    split at h
    · simp only [List.mem_cons] at h
      rcases h with rfl | h
      · exact Or.inl rfl
      · exact Or.inr (List.mem_cons.mpr h)
    · simp only [List.mem_cons] at h
      rcases h with rfl | h
      · exact Or.inr (List.mem_cons_self a rest)
      · rcases ih h with h1 | h1
        · exact Or.inl h1
        · exact Or.inr (List.mem_cons_of_mem e h1)

lemma head_list_insert_ordered {α : Type} (less : α → α → Bool) (x : α)
    (q : List α) :
    (list_insert_ordered less x q).head? = some x ∨
      (list_insert_ordered less x q).head? = q.head? := by
  cases q with
  | nil => exact Or.inl rfl
  | cons e rest =>
    simp only [list_insert_ordered]
    split
    · exact Or.inl rfl
    · exact Or.inr rfl

lemma chain_list_insert_ordered (x : SleepingThread) :
    ∀ q : List SleepingThread, List.Chain' queue_le_fifo q →
      (∀ e ∈ q, e.seq < x.seq) →
      List.Chain' queue_le_fifo
        (list_insert_ordered compare_wake_up_time x q) := by
  intro q
  induction q with
  | nil => intro _ _; simp [list_insert_ordered]
  | cons e rest ih =>
    intro hc hf
    simp only [list_insert_ordered]
    split
    · next hlt =>
      have hlt1 : x.wake_up_time < e.wake_up_time := by
        simpa [compare_wake_up_time] using hlt
      rw [List.chain'_cons]
      exact ⟨⟨le_of_lt hlt1, fun heq => by omega⟩, hc⟩
    · next hnlt =>
      have hle : e.wake_up_time ≤ x.wake_up_time := by
        simp only [compare_wake_up_time, decide_eq_true_eq] at hnlt
        omega
      rw [List.chain'_cons']
      constructor
      · intro y hy
        rcases head_list_insert_ordered compare_wake_up_time x rest with hh | hh
        · rw [hh] at hy
          simp only [Option.mem_def, Option.some.injEq] at hy
          subst hy
          exact ⟨hle, fun _ => hf e (List.mem_cons_self e rest)⟩
        · rw [hh] at hy
          exact (List.chain'_cons'.mp hc).1 y hy
      · exact ih hc.tail fun a ha => hf a (List.mem_cons_of_mem e ha)

lemma chain_timer_wakeup_drain (curr : Int) :
    ∀ q : List SleepingThread, List.Chain' queue_le_fifo q →
      List.Chain' queue_le_fifo (timer_wakeup_drain curr q).2 := by
  intro q
  induction q with
  | nil => intro h; exact h
  | cons st rest ih =>
    intro hc
    simp only [timer_wakeup_drain]
    split
    · exact hc
    · exact ih hc.tail

lemma mem_timer_wakeup_drain_rest (curr : Int) :
    ∀ q : List SleepingThread, ∀ e ∈ (timer_wakeup_drain curr q).2, e ∈ q := by
  intro q
  induction q with
  | nil => intro e he; exact he
  | cons st rest ih =>
    intro e he
    simp only [timer_wakeup_drain] at he
    split at he
    · exact he
    · exact List.mem_cons_of_mem st (ih e he)

/-- The inductive invariant for the sleep queue: sorted ascending by
wake-up time with FIFO tie-breaking, and every queued sequence number is
below the next request number. -/
def sys_inv (s : SysState) : Prop :=
  List.Chain' queue_le_fifo s.queue ∧ ∀ e ∈ s.queue, e.seq < s.next_seq

lemma sys_step_inv (s : SysState) (op : TimerOp) (h : sys_inv s) :
    sys_inv (sys_step s op) := by
  obtain ⟨hc, hseq⟩ := h
  cases op with
  | sleep tid n =>
    by_cases hn : n ≤ 0
    · constructor
      · simpa [sys_step, timer_sleep_update, hn] using hc
      · intro e he
        simp only [sys_step, timer_sleep_update, if_pos hn] at he ⊢
        exact hseq e he
    · constructor
      · simp only [sys_step, timer_sleep_update, if_neg hn,
          timer_sleep_insert_eq]
        exact chain_list_insert_ordered _ s.queue hc fun e he => hseq e he
      · intro e he
        simp only [sys_step, timer_sleep_update, if_neg hn,
          timer_sleep_insert_eq] at he
        simp only [sys_step, if_neg hn]
        rcases mem_list_insert_ordered _ _ e s.queue he with rfl | he1
        · exact Nat.lt_succ_self s.next_seq
        · have := hseq e he1
          omega
  | tick =>
    constructor
    · exact chain_timer_wakeup_drain _ s.queue hc
    · intro e he
      exact hseq e (mem_timer_wakeup_drain_rest _ s.queue e he)

lemma sys_foldl_inv (ops : List TimerOp) :
    ∀ s : SysState, sys_inv s → sys_inv (ops.foldl sys_step s) := by
  induction ops with
  | nil => intro s hs; simpa using hs
  | cons op rest ih => intro s hs; exact ih _ (sys_step_inv s op hs)

/-- C2: after any sequence of `timer_sleep` insertions and wake-dispatcher
removals starting from boot, adjacent sleep-queue entries satisfy
`queue[i].wake_up_time <= queue[i+1].wake_up_time`, and entries with equal
wake-up time are ordered by their request sequence numbers (FIFO among
equal wake ticks). -/
theorem sleep_queue_sorted_fifo (ops : List TimerOp) :
    List.Chain' queue_le_fifo (sys_run ops).queue :=
  (sys_foldl_inv ops sys_init ⟨List.chain'_nil, by simp [sys_init]⟩).1

/-- C6 counterexample: `timer_sleep` performs no interrupt-level
assertion — called with interrupts disabled and `n = 1` it does not fail
fatally but proceeds down the blocking path. -/
theorem timer_sleep_no_intr_assert_cex :
    timer_sleep_run false 1 = SleepResult.blocked 1 ∧
      timer_sleep_run false 1 ≠ SleepResult.assertFailure := by
  decide

/-- C6 (amended): the duration-based wrappers `timer_msleep`,
`timer_usleep` and `timer_nsleep` all reach the interrupts-enabled
assertion in `real_time_sleep` and fail fatally when called with
interrupts disabled; `timer_sleep` itself, however, performs no such
assertion and proceeds to block for any `n > 0`. -/
theorem sleep_wrappers_assert_intr (x n : Int) (hn : 0 < n) :
    timer_msleep false x = SleepResult.assertFailure ∧
    timer_usleep false x = SleepResult.assertFailure ∧
    timer_nsleep false x = SleepResult.assertFailure ∧
    timer_sleep_run false n = SleepResult.blocked n := by
  refine ⟨rfl, rfl, rfl, ?_⟩
  simp [timer_sleep_run, show ¬n ≤ 0 by omega]

/-- Witness for C6 (amended) at `x = 3`, `n = 5`. -/
theorem sleep_wrappers_assert_intr_witness :
    (0 : Int) < 5 ∧
      (timer_msleep false 3 = SleepResult.assertFailure ∧
      timer_usleep false 3 = SleepResult.assertFailure ∧
      timer_nsleep false 3 = SleepResult.assertFailure ∧
      timer_sleep_run false 5 = SleepResult.blocked 5) :=
  ⟨by decide, sleep_wrappers_assert_intr 3 5 (by decide)⟩

/-- C7: for a nonnegative requested duration of `num/denom` seconds
(`denom > 0`), the duration-based wrappers delegate to `real_time_sleep`,
which computes `num * TIMER_FREQ / denom` ticks — under these signs the
floor, i.e. rounded down — delegates to `timer_sleep` (blocking) when the
count is at least 1, and otherwise performs the busy-wait fallback
`real_time_delay num denom` instead of suspending. -/
theorem real_time_sleep_conversion (num denom : Int) (h1 : 0 ≤ num)
    (h2 : 0 < denom) :
    timer_msleep true num = real_time_sleep true num 1000 ∧
    timer_usleep true num = real_time_sleep true num (1000 * 1000) ∧
    timer_nsleep true num = real_time_sleep true num (1000 * 1000 * 1000) ∧
    real_time_sleep true num denom =
      (if 1 ≤ (num * TIMER_FREQ).fdiv denom then
        SleepResult.blocked ((num * TIMER_FREQ).fdiv denom)
      else SleepResult.delayed num denom) := by
  have hnum : 0 ≤ num * TIMER_FREQ :=
    mul_nonneg h1 (by norm_num [TIMER_FREQ])
  have ht : (num * TIMER_FREQ).tdiv denom = (num * TIMER_FREQ).fdiv denom := by
    rw [Int.tdiv_eq_ediv hnum (le_of_lt h2), Int.fdiv_eq_ediv _ (le_of_lt h2)]
  refine ⟨rfl, rfl, rfl, ?_⟩
  simp only [real_time_sleep, if_true, ht]
  rcases lt_or_ge 0 ((num * TIMER_FREQ).fdiv denom) with hpos | hnp
  · rw [if_pos hpos, if_pos (by omega)]
    simp [timer_sleep_run, show ¬(num * TIMER_FREQ).fdiv denom ≤ 0 by omega]
  · rw [if_neg (by omega), if_neg (by omega)]

/-- Witness for C7 at 25 milliseconds (`num = 25`, `denom = 1000`): 2
ticks, delegated to `timer_sleep`. -/
theorem real_time_sleep_conversion_witness :
    (0 : Int) ≤ 25 ∧ (0 : Int) < 1000 ∧
      (timer_msleep true 25 = real_time_sleep true 25 1000 ∧
      timer_usleep true 25 = real_time_sleep true 25 (1000 * 1000) ∧
      timer_nsleep true 25 = real_time_sleep true 25 (1000 * 1000 * 1000) ∧
      real_time_sleep true 25 1000 =
        (if 1 ≤ ((25 : Int) * TIMER_FREQ).fdiv 1000 then
          SleepResult.blocked (((25 : Int) * TIMER_FREQ).fdiv 1000)
        else SleepResult.delayed 25 1000)) :=
  ⟨by decide, by decide,
    real_time_sleep_conversion 25 1000 (by decide) (by decide)⟩

/-- C8 counterexample: from `high_bit = 1024` (the smallest reachable
value of the leading power of two) the refinement loop runs its body on
NINE descending bits, `high_bit >> 1` down to `high_bit >> 9`, so the
refined bits are not "exactly the next 8 bits" below the leading one. -/
theorem timer_calibrate_refine_nine_bits_cex :
    timer_calibrate_refine_bits 1024 =
      [512, 256, 128, 64, 32, 16, 8, 4, 2] ∧
    (timer_calibrate_refine_bits 1024).length ≠ 8 := by
  decide

lemma nat_le_lor (a b : Nat) : a ≤ a ||| b := by
  have h1 : a &&& (a ||| b) = a := by
    apply Nat.eq_of_testBit_eq
    intro i
    rw [Nat.testBit_and, Nat.testBit_or]
    cases a.testBit i <;> simp
  have h2 : a &&& (a ||| b) ≤ a ||| b := Nat.and_le_right
  omega

lemma le_refine_loop (tooMany : Nat → Bool) (stop : Nat) :
    ∀ (fuel : Nat) (l tb : Nat), l ≤ refine_loop tooMany stop fuel l tb := by
  intro fuel
  induction fuel with
  | zero => intro l tb; exact le_refl l
  | succ f ih =>
    intro l tb
    simp only [refine_loop]
    split
    · exact le_refl l
    · refine le_trans ?_ (ih (refine_step tooMany l tb) (tb >>> 1))
      unfold refine_step
      split
      · exact le_refl l
      · exact nat_le_lor l tb

lemma pow_two_shiftRight (k j : Nat) (h : j ≤ k) :
    (2 : Nat) ^ k >>> j = 2 ^ (k - j) := by
  rw [Nat.shiftRight_eq_div_pow, Nat.pow_div h (by norm_num)]

lemma refine_bits_pow (s : Nat) :
    ∀ (d fuel : Nat), d ≤ fuel →
      refine_bits (2 ^ s) fuel (2 ^ (s + d)) =
        (List.range d).map fun i => 2 ^ (s + d - i) := by
  intro d
  induction d with
  | zero =>
    intro fuel _
    cases fuel with
    | zero => rfl
    | succ f => simp [refine_bits]
  | succ d ih =>
    intro fuel hf
    cases fuel with
    | zero => omega
    | succ f =>
      have hne : (2 : Nat) ^ (s + (d + 1)) ≠ 2 ^ s := by
        have := Nat.pow_lt_pow_right (a := 2) (by norm_num)
          (show s < s + (d + 1) by omega)
        omega
      have hexp : s + (d + 1) - 1 = s + d := by omega
      have hsh : (2 : Nat) ^ (s + (d + 1)) >>> 1 = 2 ^ (s + d) := by
        rw [pow_two_shiftRight (s + (d + 1)) 1 (by omega), hexp]
      simp only [refine_bits, if_neg hne, hsh, ih f (by omega)]
      rw [List.range_succ_eq_map]
      simp only [List.map_cons, List.map_map]
      refine List.cons_eq_cons.mpr ⟨by simp, ?_⟩
      apply List.map_congr_left
      intro i hi
      simp only [Function.comp_apply]
      congr 1
      omega

/-- C8 (amended): each body run of `timer_calibrate`'s refinement loop
either leaves `loops_per_tick` unchanged or ORs in the tested bit, so
`loops_per_tick` never decreases across the refinement phase; the bits
tested are exactly the next NINE bits below the leading power of two
`high_bit = 2^k` found by the exponential search, i.e. `high_bit >> 1`
down to `high_bit >> 9` (the loop stops at `high_bit >> 10`). -/
theorem timer_calibrate_refine_monotone (tooMany : Nat → Bool)
    (l b stop tb fuel : Nat) (h k : Nat) (hh : h = 2 ^ k) (hk : 10 ≤ k) :
    (refine_step tooMany l b = l ∨ refine_step tooMany l b = l ||| b) ∧
    l ≤ refine_loop tooMany stop fuel l tb ∧
    h ≤ timer_calibrate_refine tooMany h ∧
    timer_calibrate_refine_bits h =
      (List.range 9).map fun i => h >>> (i + 1) := by
  refine ⟨?_, le_refine_loop tooMany stop fuel l tb,
    le_refine_loop tooMany (h >>> 10) 64 h (h >>> 1), ?_⟩
  · unfold refine_step
    split
    · exact Or.inl rfl
    · exact Or.inr rfl
  · subst hh
    unfold timer_calibrate_refine_bits
    rw [pow_two_shiftRight k 10 hk, pow_two_shiftRight k 1 (by omega)]
    have hsplit : (2 : Nat) ^ (k - 1) = 2 ^ ((k - 10) + 9) := by
      congr 1
      omega
    rw [hsplit, refine_bits_pow (k - 10) 9 64 (by norm_num)]
    apply List.map_congr_left
    intro i hi
    simp only [List.mem_range] at hi
    rw [pow_two_shiftRight k (i + 1) (by omega)]
    congr 1
    omega

/-- Witness for C8 (amended) at `high_bit = 1024 = 2^10` and a trivial
oracle. -/
theorem timer_calibrate_refine_monotone_witness :
    (1024 : Nat) = 2 ^ 10 ∧ 10 ≤ 10 ∧
      ((refine_step (fun _ => false) 0 0 = 0 ∨
        refine_step (fun _ => false) 0 0 = 0 ||| 0) ∧
      0 ≤ refine_loop (fun _ => false) 0 0 0 0 ∧
      1024 ≤ timer_calibrate_refine (fun _ => false) 1024 ∧
      timer_calibrate_refine_bits 1024 =
        (List.range 9).map fun i => 1024 >>> (i + 1)) :=
  ⟨by decide, by decide,
    timer_calibrate_refine_monotone (fun _ => false) 0 0 0 0 0 1024 10
      (by decide) (by decide)⟩

/-- Witness for C9 at `loops = 4`: exactly four iterations. -/
theorem busy_wait_iterations_witness :
    (0 : Int) < 4 ∧ busy_wait 4 = (4 : Int).toNat :=
  ⟨by decide, (busy_wait_iterations 4).1 (by decide)⟩
